import Mathlib

/-!
Verification of the MMIX memory / register-state core (`mmix.js`).

The definitions below are a shallow embedding of the JavaScript source:

* `Memory64` embeds the `Memory64` class.  The JS class stores bytes in a
  `Map` whose absent keys read as `0n` (`this.store.get(addr) ?? 0n`); we
  model the store as a total function from addresses to bytes together with
  the invariant (guaranteed by `writeByte`, which masks with `& 0xFF`) that
  every stored value is below 256.  Addresses are `BigInt` in the source and
  are only ever produced by non-negative arithmetic, so they are `Nat` here.
* JS `BigInt` values become `Int`; bitwise operations on them are translated
  to the equivalent arithmetic (`x & (2^k - 1)` is `x % 2^k` with `%` the
  euclidean remainder, `x >> k` on a `BigInt` is the flooring division
  `fdiv x (2^k)`, `x << k` is `x * 2^k`), as noted at each use site.
* `MMIX` embeds the `MMIX` class: the two `BigUint64Array`s become functions
  out of `Fin 256` / `Fin 32`.  A JS typed array yields `undefined` when read
  out of bounds and silently drops out-of-bounds stores; accordingly the
  accessors take an `Int` index, return `Option`, and leave the state
  unchanged on an out-of-range store.
* `getRegByName` can `throw new Error` — its result type `RegLookup`
  distinguishes a returned value, a returned `undefined`, and the thrown
  `Unknown register` error.
-/

/-- Width constants for memory operations (`Width` in the source).
`HIGH_TETRA` is the special sentinel used for LDHT/STHT. -/
inductive Width where
  | byte
  | wyde
  | tetra
  | octa
  | highTetra
deriving DecidableEq

/-- Numeric value of a width constant (`BYTE: 1, WYDE: 2, TETRA: 4, OCTA: 8`).
In the source `HIGH_TETRA` is a string sentinel, never used in arithmetic:
every arithmetic use first replaces it by `TETRA`, so it is mapped to 4. -/
def Width.size : Width → Nat
  | .byte => 1
  | .wyde => 2
  | .tetra => 4
  | .octa => 8
  | .highTetra => 4

/-- The `actualWidth` computed at the top of `read` and `write`:
`TETRA` when the access is a high-tetra access (either through the
`HIGH_TETRA` width sentinel or the `highTetra` option), else the width. -/
def Width.actual (width : Width) (highTetra : Bool) : Nat :=
  if width = Width.highTetra ∨ highTetra = true then 4 else width.size

/-- The memory store of `Memory64`: a sparse `Map` from address to byte in
the source, modelled as a total function (absent keys read as `0n`), plus
the invariant that every stored value fits in a byte — `writeByte` masks
every stored value with `& 0xFF` and a fresh store is empty. -/
structure Memory64 where
  store : Nat → Nat
  isByte : ∀ a, store a < 256

/-- `new Memory64()`: the empty store, every address reads as 0. -/
def Memory64.init : Memory64 :=
  ⟨fun _ => 0, fun _ => by norm_num⟩

/-- `readByte(addr)`: `this.store.get(addr) ?? 0n`. -/
def Memory64.readByte (m : Memory64) (addr : Nat) : Nat :=
  m.store addr

/-- `writeByte(addr, value)`: `this.store.set(addr, BigInt(value) & 0xFFn)`.
The source may be handed any value; the `& 0xFFn` mask is `% 256`. -/
def Memory64.writeByte (m : Memory64) (addr : Nat) (value : Nat) : Memory64 :=
  ⟨fun a => if a = addr then value % 256 else m.store a, by
    intro a
    dsimp only
    split
    · exact Nat.mod_lt _ (by norm_num)
    · exact m.isByte a⟩

/-- `alignAddress(addr, width)` after the `HIGH_TETRA → TETRA` replacement:
`addr & ~BigInt(width - 1)` clears the low bits of the address, which for a
power-of-two width equals rounding down to a multiple of the width. -/
def Memory64.alignAddress (addr width : Nat) : Nat :=
  addr / width * width

/-- The big-endian accumulation loop of `read`:
`for i in [0, count): result = (result << 8n) | byte(aligned + i)`.
Peeling the final iteration, the accumulator after `i + 1` iterations is the
accumulator after `i` iterations shifted by one byte plus the byte at offset
`i` (the `|` is `+` because `readByte` yields a value below 256). -/
def Memory64.readBytes (m : Memory64) (alignedAddr : Nat) : Nat → Nat
  | 0 => 0
  | n + 1 => m.readBytes alignedAddr n * 256 + m.readByte (alignedAddr + n)

/-- `signExtend(value, width)`: sign extend a value from its original width
to 64 bits.  The source tests `value & signBit` and returns `value | ~mask`;
for `0 ≤ value < 2 ^ bits` the bitwise-or with the two's-complement `~mask`
(all bits set from position `bits` up) is exactly `value - 2 ^ bits`. -/
def Memory64.signExtend (value : Nat) (width : Nat) : Int :=
  let bits := width * 8
  let signBit := 2 ^ (bits - 1)
  if value &&& signBit ≠ 0 then (value : Int) - 2 ^ bits else (value : Int)

/-- `read(addr, width, { signed, highTetra })`.  The result is the `BigInt`
the source returns: non-negative except for a signed load of a value whose
sign bit is set, in which case the source's `value | ~mask` yields the
negative two's-complement representative. -/
def Memory64.read (m : Memory64) (addr : Nat) (width : Width)
    (signed highTetra : Bool) : Int :=
  let actualWidth := width.actual highTetra
  let alignedAddr := Memory64.alignAddress addr actualWidth
  let result := m.readBytes alignedAddr actualWidth
  if width = Width.highTetra ∨ highTetra = true then
    -- high tetra: `result << 32n`, right half zero
    ((result * 2 ^ 32 : Nat) : Int)
  else if signed then
    Memory64.signExtend result actualWidth
  else
    (result : Int)

/-- The big-endian store loop of `write`:
`for i from actualWidth - 1 down to 0: writeByte(aligned + i, v & 0xFFn); v >>= 8n`.
The first iteration stores the low byte of the (already masked, hence
non-negative) value at the highest offset. -/
def Memory64.writeLoop (m : Memory64) (alignedAddr : Nat) (value : Nat) :
    Nat → Memory64
  | 0 => m
  | i + 1 =>
    Memory64.writeLoop (m.writeByte (alignedAddr + i) (value % 256))
      alignedAddr (value / 256) i

/-- `write(addr, width, value, { highTetra })`.  For a high-tetra store the
value is first arithmetically shifted right by 32 (`value >> 32n` on a
`BigInt` is flooring division); the masking `value & (2^(8·w) - 1)` is the
euclidean remainder, which is also non-negative for negative inputs. -/
def Memory64.write (m : Memory64) (addr : Nat) (width : Width) (value : Int)
    (highTetra : Bool) : Memory64 :=
  let actualWidth := width.actual highTetra
  let actualValue : Int :=
    if width = Width.highTetra ∨ highTetra = true then
      Int.fdiv value (2 ^ 32)
    else value
  let alignedAddr := Memory64.alignAddress addr actualWidth
  let masked : Nat := (actualValue % (2 ^ (actualWidth * 8) : Int)).toNat
  m.writeLoop alignedAddr masked actualWidth

/-- `clear()`: `this.store.clear()` — every address reads as 0 afterwards. -/
def Memory64.clear (_ : Memory64) : Memory64 :=
  Memory64.init

/-- `SpecialReg`, the fixed mnemonic → slot table from the source, in source
order.  `name in SpecialReg` / `SpecialReg[name]` become `List.lookup`. -/
def SpecialReg : List (String × Nat) :=
  [("rA", 21), ("rB", 0), ("rC", 8), ("rD", 1), ("rE", 2), ("rF", 22),
   ("rG", 19), ("rH", 3), ("rI", 12), ("rJ", 4), ("rK", 15), ("rL", 20),
   ("rM", 5), ("rN", 9), ("rO", 10), ("rP", 23), ("rQ", 16), ("rR", 6),
   ("rS", 11), ("rT", 13), ("rU", 17), ("rV", 18), ("rW", 24), ("rX", 25),
   ("rY", 26), ("rZ", 27), ("rBB", 7), ("rTT", 14), ("rWW", 28), ("rXX", 29),
   ("rYY", 30), ("rZZ", 31)]

/-- Property names the JS `in` operator finds on every plain object literal
through its `Object.prototype` prototype chain (the standard methods plus
the Annex B accessors present in browsers and Node).  For these names
`name in SpecialReg` is true although the table has no such mnemonic. -/
def objectPrototypeKeys : List String :=
  ["constructor", "hasOwnProperty", "isPrototypeOf", "propertyIsEnumerable",
   "toLocaleString", "toString", "valueOf", "__proto__", "__defineGetter__",
   "__defineSetter__", "__lookupGetter__", "__lookupSetter__"]

/-- The decimal-digit test of `parseInt` with radix 10: code points 48–57. -/
def isDecimalDigit (c : Char) : Bool :=
  decide (48 ≤ c.toNat ∧ c.toNat ≤ 57)

/-- Whitespace skipped by `parseInt` before the number: space, tab, newline,
carriage return, vertical tab, form feed. -/
def isJsWhitespace (c : Char) : Bool :=
  decide (c.toNat = 32 ∨ c.toNat = 9 ∨ c.toNat = 10 ∨ c.toNat = 13 ∨
    c.toNat = 11 ∨ c.toNat = 12)

/-- Numeric value of a decimal digit string (code point minus 48 per digit),
accumulated left to right as `parseInt` does. -/
def digitsVal (ds : List Char) : Nat :=
  ds.foldl (fun acc c => 10 * acc + (c.toNat - 48)) 0

/-- The longest decimal-digit prefix of the remaining input, `none` when it
is empty (in which case `parseInt` returns `NaN`). -/
def leadingDigits (cs : List Char) : Option Nat :=
  let ds := cs.takeWhile isDecimalDigit
  if ds = [] then none else some (digitsVal ds)

/-- `parseInt(s, 10)`: skip leading whitespace, allow one sign character,
then read the longest decimal-digit prefix; `none` models the `NaN` result
when no digit follows. -/
def parseIntDec (s : List Char) : Option Int :=
  match s.dropWhile isJsWhitespace with
  | [] => none
  | c :: rest =>
    if c = '-' then (leadingDigits rest).map (fun n => -(n : Int))
    else if c = '+' then (leadingDigits rest).map (fun n => (n : Int))
    else (leadingDigits (c :: rest)).map (fun n => (n : Int))

/-- Machine state of the `MMIX` class: memory, the `BigUint64Array(256)` of
general registers, the `BigUint64Array(32)` of special registers, and the
program counter. -/
structure MMIX where
  mem : Memory64
  reg : Fin 256 → Nat
  sreg : Fin 32 → Nat
  pc : Nat

/-- `new MMIX()`: empty memory, all registers and the program counter 0. -/
def MMIX.init : MMIX :=
  ⟨Memory64.init, fun _ => 0, fun _ => 0, 0⟩

/-- `getReg(index)`: `this.reg[index]`.  Reading a typed array at an index
outside its bounds yields `undefined`, modelled as `none`; no error is
raised. -/
def MMIX.getReg (m : MMIX) (index : Int) : Option Nat :=
  if h : 0 ≤ index ∧ index < 256 then some (m.reg ⟨index.toNat, by omega⟩)
  else none

/-- `setReg(index, value)`: `this.reg[index] = BigInt(value) & ((1n << 64n) - 1n)`.
The mask keeps the low 64 bits (the euclidean remainder `% 2^64`, also for
negative inputs).  A store to a typed array at an out-of-bounds index is
silently ignored: the state is returned unchanged and no error is raised. -/
def MMIX.setReg (m : MMIX) (index : Int) (value : Int) : MMIX :=
  if h : 0 ≤ index ∧ index < 256 then
    { m with reg :=
        Function.update m.reg ⟨index.toNat, by omega⟩ ((value % (2 ^ 64 : Int)).toNat) }
  else m

/-- `getSpecialReg(index)`: `this.sreg[index]`, same typed-array semantics
as `getReg` with bound 32. -/
def MMIX.getSpecialReg (m : MMIX) (index : Int) : Option Nat :=
  if h : 0 ≤ index ∧ index < 32 then some (m.sreg ⟨index.toNat, by omega⟩)
  else none

/-- `setSpecialReg(index, value)`: same typed-array semantics as `setReg`
with bound 32. -/
def MMIX.setSpecialReg (m : MMIX) (index : Int) (value : Int) : MMIX :=
  if h : 0 ≤ index ∧ index < 32 then
    { m with sreg :=
        Function.update m.sreg ⟨index.toNat, by omega⟩ ((value % (2 ^ 64 : Int)).toNat) }
  else m

/-- Outcome of `getRegByName`: a register value was returned, `undefined`
was returned (an out-of-bounds typed-array read — no error), or
`throw new Error("Unknown register: ...")` was executed. -/
inductive RegLookup where
  | value (v : Nat)
  | undef
  | unknownRegister
deriving DecidableEq

/-- `getRegByName(name)`: if the name starts with `'$'`, parse the rest with
`parseInt(·, 10)` and read the general register at that index (an index
outside [0, 256) — including the `NaN` of an unparsable rest — yields
`undefined`); otherwise test `name in SpecialReg`, which is true for the
table's own mnemonics and also for properties inherited from
`Object.prototype` (for the latter `SpecialReg[name]` is a non-numeric
inherited member and `this.sreg[...]` yields `undefined`); names in neither
category throw the `Unknown register` error. -/
def MMIX.getRegByName (m : MMIX) (name : String) : RegLookup :=
  match name.data with
  | '$' :: rest =>
    match parseIntDec rest with
    | some i =>
      match m.getReg i with
      | some v => .value v
      | none => .undef
    | none => .undef
  | _ =>
    match SpecialReg.lookup name with
    | some slot =>
      match m.getSpecialReg slot with
      | some v => .value v
      | none => .undef
    | none =>
      if name ∈ objectPrototypeKeys then .undef
      else .unknownRegister

/-- `reset()`: clear the memory store, fill both register arrays with 0 and
set the program counter to 0. -/
def MMIX.reset (m : MMIX) : MMIX :=
  ⟨m.mem.clear, fun _ => 0, fun _ => 0, 0⟩

/-- `value.toString(16)` for a `BigInt`, as a character list: lowercase
hexadecimal digits, with a leading minus sign when the value is negative. -/
def bigIntToString16 (v : Int) : List Char :=
  if v < 0 then '-' :: Nat.toDigits 16 v.natAbs
  else Nat.toDigits 16 v.toNat

/-- `s.padStart(len, c)`: prepend copies of `c` until the length is at least
`len`. -/
def padStart (s : String) (len : Nat) (c : Char) : String :=
  if s.length < len then String.mk (List.replicate (len - s.length) c) ++ s
  else s

/-- `formatHex(value, digits)`: a negative value is first brought into the
unsigned 64-bit range by adding `1n << 64n`; the result is rendered in
uppercase hexadecimal and left-padded with zeros to `digits` characters. -/
def formatHex (value : Int) (digits : Nat) : String :=
  padStart
    (String.mk ((bigIntToString16
      (if value < 0 then 2 ^ 64 + value else value)).map Char.toUpper))
    digits '0'

/-- `formatSigned(value)`: the callers pass 64-bit register values, so the
argument is the unsigned 64-bit bit pattern.  If bit 63 is set
(`value & (1n << 63n)`), render `value - (1n << 64n)`; otherwise render the
value itself. -/
def formatSigned (value : Nat) : String :=
  if value &&& 2 ^ 63 ≠ 0 then toString ((value : Int) - 2 ^ 64)
  else toString value

theorem Memory64.readByte_writeByte (m : Memory64) (a v b : Nat) :
    (m.writeByte a v).readByte b = if b = a then v % 256 else m.readByte b := rfl

theorem Memory64.readByte_writeLoop_frame (m : Memory64) (aligned v n a : Nat)
    (h : a < aligned ∨ aligned + n ≤ a) :
    (m.writeLoop aligned v n).readByte a = m.readByte a := by
  induction n generalizing m v with
  | zero => rfl
  | succ k ih =>
    simp only [Memory64.writeLoop]
    rw [ih _ _ (by omega), Memory64.readByte_writeByte, if_neg (by omega)]

theorem Memory64.readByte_writeLoop (m : Memory64) (aligned v n i : Nat)
    (h : i < n) :
    (m.writeLoop aligned v n).readByte (aligned + i) =
      v / 256 ^ (n - 1 - i) % 256 := by
  induction n generalizing m v with
  | zero => omega
  | succ k ih =>
    simp only [Memory64.writeLoop]
    rcases Nat.lt_or_ge i k with hik | hik
    · rw [ih _ _ hik, Nat.div_div_eq_div_mul]
      have hp : 256 * 256 ^ (k - 1 - i) = 256 ^ (k - i) := by
        rw [← pow_succ']
        congr 1
        omega
      rw [hp]
      have hq : k + 1 - 1 - i = k - i := by omega
      rw [hq]
    · have hik2 : i = k := by omega
      subst hik2
      rw [Memory64.readByte_writeLoop_frame _ _ _ _ _ (by omega),
        Memory64.readByte_writeByte, if_pos rfl]
      have h0 : i + 1 - 1 - i = 0 := by omega
      rw [h0, pow_zero, Nat.div_one]
      exact Nat.mod_mod_of_dvd v dvd_rfl

theorem Memory64.readBytes_of_bytes (m : Memory64) (aligned v n : Nat)
    (h : ∀ i, i < n → m.readByte (aligned + i) = v / 256 ^ (n - 1 - i) % 256) :
    m.readBytes aligned n = v % 256 ^ n := by
  induction n generalizing v with
  | zero => simp [Memory64.readBytes, Nat.mod_one]
  | succ k ih =>
    rw [Memory64.readBytes]
    have hbytes : ∀ i, i < k →
        m.readByte (aligned + i) = (v / 256) / 256 ^ (k - 1 - i) % 256 := by
      intro i hi
      rw [h i (by omega), Nat.div_div_eq_div_mul]
      have hp : 256 * 256 ^ (k - 1 - i) = 256 ^ (k - i) := by
        rw [← pow_succ']; congr 1; omega
      rw [hp]
      have hq : k + 1 - 1 - i = k - i := by omega
      rw [hq]
    rw [ih _ hbytes, h k (by omega)]
    have h0 : k + 1 - 1 - k = 0 := by omega
    rw [h0, pow_zero, Nat.div_one]
    have hmm : v % (256 * 256 ^ k) = v % 256 + 256 * (v / 256 % 256 ^ k) :=
      Nat.mod_mul
    rw [pow_succ, mul_comm (256 ^ k) 256, hmm]
    ring

theorem Memory64.readBytes_lt (m : Memory64) (aligned n : Nat) :
    m.readBytes aligned n < 256 ^ n := by
  induction n with
  | zero => simp [Memory64.readBytes]
  | succ k ih =>
    rw [Memory64.readBytes, pow_succ]
    have hb := m.isByte (aligned + k)
    calc m.readBytes aligned k * 256 + m.readByte (aligned + k)
        ≤ (256 ^ k - 1) * 256 + 255 := by
          have : m.readBytes aligned k ≤ 256 ^ k - 1 := by omega
          have hbb : m.readByte (aligned + k) ≤ 255 := by
            have := m.isByte (aligned + k); exact Nat.le_of_lt_succ this
          exact Nat.add_le_add (Nat.mul_le_mul_right 256 this) hbb
      _ < 256 ^ k * 256 := by
          have hpos : 1 ≤ 256 ^ k := Nat.one_le_pow _ _ (by norm_num)
          omega

theorem Memory64.write_read_id (m : Memory64) (A : Nat) (V : Int)
    (w : Width) (hw : w ≠ Width.highTetra) :
    (m.write A w V false).read A w false false = V % (2 ^ (w.size * 8) : Int) := by
  simp only [Memory64.write, Memory64.read, Width.actual, Bool.false_eq_true,
    or_false, hw, ite_false, if_false]
  have hv1 : 0 ≤ V % (2 ^ (w.size * 8) : Int) := Int.emod_nonneg V (by positivity)
  have hv2 : V % (2 ^ (w.size * 8) : Int) < 2 ^ (w.size * 8) :=
    Int.emod_lt_of_pos V (by positivity)
  have hpw : (256 : Nat) ^ w.size = 2 ^ (w.size * 8) := by
    rw [show (256 : Nat) = 2 ^ 8 by norm_num, ← pow_mul, mul_comm]
  have hvlt : (V % (2 ^ (w.size * 8) : Int)).toNat < 256 ^ w.size := by
    have hcast : ((2 ^ (w.size * 8) : Nat) : Int) = (2 ^ (w.size * 8) : Int) := by
      push_cast
      ring
    omega
  rw [Memory64.readBytes_of_bytes _ _ ((V % (2 ^ (w.size * 8) : Int)).toNat) _
    (fun i hi => Memory64.readByte_writeLoop _ _ _ _ _ hi)]
  rw [Nat.mod_eq_of_lt hvlt]
  omega

theorem Memory64.write_octa_bytes (m : Memory64) (A : Nat) (V : Int) (i : Nat)
    (hi : i < 8) :
    (m.write A Width.octa V false).readByte (Memory64.alignAddress A 8 + i) =
      (V % (2 ^ 64 : Int)).toNat / 256 ^ (7 - i) % 256 := by
  have hcond : ¬ (Width.octa = Width.highTetra ∨ (false : Bool) = true) := by
    simp
  simp only [Memory64.write, Width.actual, if_neg hcond, Width.size]
  rw [Memory64.readByte_writeLoop _ _ _ _ _ hi]

theorem Memory64.write_frame (m : Memory64) (A : Nat) (w : Width) (V : Int)
    (hT : Bool) (a : Nat)
    (h : a < Memory64.alignAddress A (w.actual hT) ∨
      Memory64.alignAddress A (w.actual hT) + w.actual hT ≤ a) :
    (m.write A w V hT).readByte a = m.readByte a := by
  simp only [Memory64.write]
  exact Memory64.readByte_writeLoop_frame _ _ _ _ _ h

theorem land_two_pow_ne_zero_iff (u bits : Nat) (hb : 0 < bits)
    (hu : u < 2 ^ bits) :
    u &&& 2 ^ (bits - 1) ≠ 0 ↔ 2 ^ (bits - 1) ≤ u := by
  rw [Nat.and_two_pow, Nat.testBit_to_div_mod]
  have hlt : u / 2 ^ (bits - 1) < 2 := by
    rw [Nat.div_lt_iff_lt_mul (by positivity)]
    calc u < 2 ^ bits := hu
      _ = 2 * 2 ^ (bits - 1) := by
          rw [← pow_succ']
          congr 1
          omega
  have h2 : u / 2 ^ (bits - 1) % 2 = u / 2 ^ (bits - 1) :=
    Nat.mod_eq_of_lt hlt
  rw [h2]
  have hdiv : 1 ≤ u / 2 ^ (bits - 1) ↔ 2 ^ (bits - 1) ≤ u :=
    Nat.one_le_div_iff (by positivity)
  rcases (by omega : u / 2 ^ (bits - 1) = 0 ∨ u / 2 ^ (bits - 1) = 1) with h0 | h1
  · rw [h0]
    norm_num
    exact (Nat.div_eq_zero_iff (by positivity)).mp h0
  · rw [h1]
    norm_num
    exact hdiv.mp (by rw [h1])

theorem Memory64.read_signed_eq (m : Memory64) (A : Nat) (w : Width)
    (hw : w ≠ Width.highTetra) :
    m.read A w true false =
      (if (2 ^ (w.size * 8 - 1) : Int) ≤ m.read A w false false
       then m.read A w false false - 2 ^ (w.size * 8)
       else m.read A w false false) := by
  have hbits : 0 < w.size * 8 := by
    cases w <;> simp [Width.size]
  simp only [Memory64.read, Width.actual, Bool.false_eq_true, or_false, hw,
    ite_false, if_false, Memory64.signExtend, if_true]
  set u := m.readBytes (Memory64.alignAddress A w.size) w.size with hu
  have hult : u < 2 ^ (w.size * 8) := by
    have h1 := Memory64.readBytes_lt m (Memory64.alignAddress A w.size) w.size
    have h2 : (256 : Nat) ^ w.size = 2 ^ (w.size * 8) := by
      rw [show (256 : Nat) = 2 ^ 8 by norm_num, ← pow_mul, mul_comm]
    rw [← h2]
    exact h1
  have hiff := land_two_pow_ne_zero_iff u (w.size * 8) hbits hult
  simp only [ne_eq] at hiff ⊢
  simp only [hiff]
  by_cases hc : 2 ^ (w.size * 8 - 1) ≤ u
  · rw [if_pos hc, if_pos (by exact_mod_cast hc)]
  · rw [if_neg hc, if_neg (by exact_mod_cast hc)]

theorem isDecimalDigit_props (c : Char) (h : isDecimalDigit c = true) :
    isJsWhitespace c = false ∧ c ≠ '-' ∧ c ≠ '+' := by
  simp only [isDecimalDigit, decide_eq_true_eq] at h
  refine ⟨?_, ?_, ?_⟩
  · simp only [isJsWhitespace, decide_eq_false_iff_not]
    omega
  · rintro rfl
    exact absurd h (by decide)
  · rintro rfl
    exact absurd h (by decide)

theorem takeWhile_digits_eq_self (l : List Char)
    (h : ∀ c ∈ l, isDecimalDigit c = true) :
    l.takeWhile isDecimalDigit = l := by
  induction l with
  | nil => rfl
  | cons c cs ih =>
    rw [List.takeWhile_cons, if_pos (h c (by simp))]
    rw [ih (fun d hd => h d (by simp [hd]))]

theorem parseIntDec_digits (s : List Char) (hne : s ≠ [])
    (hall : ∀ c ∈ s, isDecimalDigit c = true) :
    parseIntDec s = some ((digitsVal s : Nat) : Int) := by
  cases s with
  | nil => contradiction
  | cons c cs =>
    obtain ⟨hws, hdash, hplus⟩ := isDecimalDigit_props c (hall c (by simp))
    rw [parseIntDec, List.dropWhile_cons, if_neg (by simp [hws])]
    split
    next heq => exact absurd heq (by simp)
    next c2 rest heq =>
      obtain ⟨rfl, rfl⟩ : c = c2 ∧ cs = rest := by
        constructor <;> injection heq
      rw [if_neg hdash, if_neg hplus, leadingDigits,
        takeWhile_digits_eq_self _ hall]
      simp

theorem MMIX.getReg_inRange (m : MMIX) (k : Nat) (hk : k < 256) :
    m.getReg (k : Int) = some (m.reg ⟨k, hk⟩) := by
  simp only [MMIX.getReg]
  rw [dif_pos ⟨Int.natCast_nonneg _, by exact_mod_cast hk⟩]
  simp

theorem MMIX.getReg_outRange (m : MMIX) (i : Int) (hi : ¬ (0 ≤ i ∧ i < 256)) :
    m.getReg i = none := by
  simp only [MMIX.getReg]
  rw [dif_neg hi]

set_option maxRecDepth 8192 in
theorem MMIX.getRegByName_digits (m : MMIX) (s : List Char) (hne : s ≠ [])
    (hall : ∀ c ∈ s, isDecimalDigit c = true) (hlt : digitsVal s < 256) :
    m.getRegByName (String.mk ('$' :: s)) =
      RegLookup.value (m.reg ⟨digitsVal s, hlt⟩) := by
  rw [MMIX.getRegByName]
  split
  case _ rest heq =>
    have hrest : s = rest := by simpa using heq
    subst hrest
    rw [parseIntDec_digits s hne hall]
    show (match m.getReg ((digitsVal s : Nat) : Int) with
          | some v => RegLookup.value v
          | none => RegLookup.undef) = _
    rw [MMIX.getReg_inRange m (digitsVal s) hlt]
  case _ h =>
    exact absurd (h s rfl) id

set_option maxRecDepth 8192 in
theorem MMIX.getRegByName_digits_oob (m : MMIX) (s : List Char) (hne : s ≠ [])
    (hall : ∀ c ∈ s, isDecimalDigit c = true) (hge : 256 ≤ digitsVal s) :
    m.getRegByName (String.mk ('$' :: s)) = RegLookup.undef := by
  rw [MMIX.getRegByName]
  split
  case _ rest heq =>
    have hrest : s = rest := by simpa using heq
    subst hrest
    rw [parseIntDec_digits s hne hall]
    show (match m.getReg ((digitsVal s : Nat) : Int) with
          | some v => RegLookup.value v
          | none => RegLookup.undef) = _
    rw [MMIX.getReg_outRange m ((digitsVal s : Nat) : Int) (by omega)]
  case _ h =>
    exact absurd (h s rfl) id

theorem MMIX.getRegByName_special (m : MMIX) (name : String) (slot : Nat)
    (h : (name, slot) ∈ SpecialReg) :
    ∃ hs : slot < 32, m.getRegByName name = RegLookup.value (m.sreg ⟨slot, hs⟩) := by
  fin_cases h <;> exact ⟨by norm_num, rfl⟩

theorem MMIX.getRegByName_unknown (m : MMIX) (name : String)
    (h1 : name.data.head? ≠ some '$')
    (h2 : SpecialReg.lookup name = none)
    (h3 : name ∉ objectPrototypeKeys) :
    m.getRegByName name = RegLookup.unknownRegister := by
  rw [MMIX.getRegByName]
  split
  case _ rest heq =>
    rw [heq] at h1
    exact (h1 (by simp)).elim
  case _ =>
    rw [h2]
    exact if_neg h3

theorem MMIX.getRegByName_protoKey (m : MMIX) (name : String)
    (h : name ∈ objectPrototypeKeys) :
    m.getRegByName name = RegLookup.undef := by
  fin_cases h <;> rfl

theorem MMIX.setReg_outRange (m : MMIX) (i v : Int) (h : ¬ (0 ≤ i ∧ i < 256)) :
    m.setReg i v = m := by
  simp only [MMIX.setReg]
  rw [dif_neg h]

theorem MMIX.getSpecialReg_outRange (m : MMIX) (i : Int)
    (h : ¬ (0 ≤ i ∧ i < 32)) : m.getSpecialReg i = none := by
  simp only [MMIX.getSpecialReg]
  rw [dif_neg h]

theorem MMIX.setSpecialReg_outRange (m : MMIX) (i v : Int)
    (h : ¬ (0 ≤ i ∧ i < 32)) : m.setSpecialReg i v = m := by
  simp only [MMIX.setSpecialReg]
  rw [dif_neg h]

/-- C1, counterexample: the claim says `reset()` leaves the memory store
untouched, with every `readByte(a)` unchanged.  In the source `reset()`
calls `this.mem.clear()`: starting from a machine whose memory holds 0x42 at
address 5, `readByte(5)` is 0 after `reset()`, not 0x42.  (The repository's
own unit test `should reset all state` asserts exactly this clearing.) -/
theorem c1_reset_counterexample :
    ((MMIX.mk (Memory64.init.writeByte 5 0x42) (fun _ => 0) (fun _ => 0)
        0).reset).mem.readByte 5 ≠
      (MMIX.mk (Memory64.init.writeByte 5 0x42) (fun _ => 0) (fun _ => 0)
        0).mem.readByte 5 := by
  decide

/-- C1, amended: calling `reset()` makes every general register, every
special register and the program counter read as 0, and also clears the
memory store, so every `readByte(a)` returns 0 afterwards (rather than its
previous value). -/
theorem c1_reset_amended (m : MMIX) (i : Fin 256) (j : Fin 32) (a : Nat) :
    (m.reset).reg i = 0 ∧ (m.reset).sreg j = 0 ∧ (m.reset).pc = 0 ∧
      (m.reset).mem.readByte a = 0 :=
  ⟨rfl, rfl, rfl, rfl⟩

/-- C2, counterexample: the claim says register accessors raise an
`OutOfRangeIndex` error for indices outside the arrays.  The source indexes
`BigUint64Array`s directly, which never throws: at the concrete out-of-range
indices 300 and 32, `getReg`/`getSpecialReg` return `undefined` (modelled
`none`, an ordinary return, not an error) and `setReg`/`setSpecialReg`
return with the machine state unchanged.  No error path exists in these
accessors at all — they are total functions in the embedding. -/
theorem c2_counterexample :
    MMIX.init.getReg 300 = none ∧ MMIX.init.setReg 300 5 = MMIX.init ∧
      MMIX.init.getSpecialReg 32 = none ∧
      MMIX.init.setSpecialReg 32 7 = MMIX.init :=
  ⟨rfl, rfl, rfl, rfl⟩

/-- C2, amended: for every index outside [0, 256), `getReg` returns
`undefined` and `setReg` silently stores nothing, and no error of any kind
is raised; likewise `getSpecialReg`/`setSpecialReg` for every index outside
the 32-slot special-register array. -/
theorem c2_amended (m : MMIX) (i v : Int) :
    (¬ (0 ≤ i ∧ i < 256) → m.getReg i = none ∧ m.setReg i v = m) ∧
    (¬ (0 ≤ i ∧ i < 32) → m.getSpecialReg i = none ∧ m.setSpecialReg i v = m) :=
  ⟨fun h => ⟨MMIX.getReg_outRange m i h, MMIX.setReg_outRange m i v h⟩,
   fun h => ⟨MMIX.getSpecialReg_outRange m i h,
     MMIX.setSpecialReg_outRange m i v h⟩⟩

/-- C2, witness: the amended theorem applied at the concrete out-of-range
indices -3 (general) and 40 (special). -/
theorem c2_witness :
    (MMIX.init.getReg (-3) = none ∧ MMIX.init.setReg (-3) 5 = MMIX.init) ∧
      (MMIX.init.getSpecialReg 40 = none ∧
        MMIX.init.setSpecialReg 40 5 = MMIX.init) :=
  ⟨(c2_amended MMIX.init (-3) 5).1 (by decide),
   (c2_amended MMIX.init 40 5).2 (by decide)⟩

/-- C3, counterexample: the claim says `getRegByName` fails with
`UnknownRegister` for a `$`-prefixed general index outside [0, 255].  On the
concrete input `"$999"` the source instead returns `this.reg[999]`, which
is `undefined` — no error is thrown. -/
theorem c3_counterexample :
    MMIX.init.getRegByName "$999" = RegLookup.undef ∧
      RegLookup.undef ≠ RegLookup.unknownRegister :=
  ⟨by decide, by decide⟩

/-- C3, amended: `getRegByName(name)` returns general register k when name
is `$` followed by a decimal numeral of value k in [0, 255]; returns the
value of the named special register when name is a mnemonic in the fixed
table; throws `UnknownRegister` for every input that neither starts with
`$`, nor is a mnemonic, nor is a property name inherited from
`Object.prototype`; but for a `$`-prefixed decimal index outside [0, 255],
and for an inherited `Object.prototype` property name such as `"toString"`
(for which `name in SpecialReg` is true and the subsequent typed-array read
is non-numeric), it returns `undefined` without raising. -/
theorem c3_amended :
    (∀ (m : MMIX) (s : List Char), s ≠ [] →
      (∀ c ∈ s, isDecimalDigit c = true) → ∀ hlt : digitsVal s < 256,
      m.getRegByName (String.mk ('$' :: s)) =
        RegLookup.value (m.reg ⟨digitsVal s, hlt⟩)) ∧
    (∀ (m : MMIX) (name : String) (slot : Nat), (name, slot) ∈ SpecialReg →
      ∃ hs : slot < 32,
        m.getRegByName name = RegLookup.value (m.sreg ⟨slot, hs⟩)) ∧
    (∀ (m : MMIX) (s : List Char), s ≠ [] →
      (∀ c ∈ s, isDecimalDigit c = true) → 256 ≤ digitsVal s →
      m.getRegByName (String.mk ('$' :: s)) = RegLookup.undef) ∧
    (∀ (m : MMIX) (name : String), name ∈ objectPrototypeKeys →
      m.getRegByName name = RegLookup.undef) ∧
    (∀ (m : MMIX) (name : String), name.data.head? ≠ some '$' →
      SpecialReg.lookup name = none → name ∉ objectPrototypeKeys →
      m.getRegByName name = RegLookup.unknownRegister) :=
  ⟨fun m s hne hall hlt => MMIX.getRegByName_digits m s hne hall hlt,
   MMIX.getRegByName_special,
   fun m s hne hall hge => MMIX.getRegByName_digits_oob m s hne hall hge,
   MMIX.getRegByName_protoKey,
   MMIX.getRegByName_unknown⟩

/-- C3, witness: the amended theorem applied at the concrete inputs
`"$42"` (a valid general-register designator), `"toString"` (an inherited
`Object.prototype` name, returning `undefined`) and `"zzz"` (neither
`$`-prefixed, nor a mnemonic, nor inherited). -/
theorem c3_witness :
    MMIX.init.getRegByName (String.mk ['$', '4', '2']) =
        RegLookup.value (MMIX.init.reg ⟨42, by norm_num⟩) ∧
      MMIX.init.getRegByName "toString" = RegLookup.undef ∧
      MMIX.init.getRegByName "zzz" = RegLookup.unknownRegister :=
  ⟨c3_amended.1 MMIX.init ['4', '2'] (by decide) (by decide) (by decide),
   c3_amended.2.2.2.1 MMIX.init "toString" (by decide),
   c3_amended.2.2.2.2 MMIX.init "zzz" (by decide) (by decide) (by decide)⟩

/-- C4 (confirmed): for every width W in {BYTE, WYDE, TETRA, OCTA}, every
value V and every address A, `write(A, W, V)` followed by
`read(A, W, {signed:false})` on the same store returns V masked to the low
W*8 bits (`V & (2^(W*8) - 1)`, the euclidean remainder below). -/
theorem c4_roundTrip (m : Memory64) (A : Nat) (V : Int) (w : Width)
    (hw : w ∈ [Width.byte, Width.wyde, Width.tetra, Width.octa]) :
    (m.write A w V false).read A w false false =
      V % (2 ^ (w.size * 8) : Int) := by
  fin_cases hw <;> exact Memory64.write_read_id m A V _ (by decide)

/-- C4, witness: the round-trip theorem applied at the concrete input
A = 1001, W = WYDE, V = 0xABCD; the masked value is 0xABCD itself. -/
theorem c4_witness :
    (Memory64.init.write 1001 Width.wyde 0xABCD false).read 1001 Width.wyde
        false false = (0xABCD : Int) % 2 ^ (Width.wyde.size * 8) ∧
      (0xABCD : Int) % 2 ^ (Width.wyde.size * 8) = 0xABCD :=
  ⟨c4_roundTrip Memory64.init 1001 0xABCD Width.wyde (by decide), by decide⟩

/-- C5 (confirmed): with memory holding the octabyte 0x0123456789ABCDEF at
address 1000, `read(1005, HIGH_TETRA)` aligns to the 4-byte boundary 1004,
reads exactly 4 bytes and returns 0x89ABCDEF00000000 (low 32 bits zero),
with the `signed` option ignored; and `write(1000, HIGH_TETRA,
0x12345678ABCDEFFF)` stores exactly the 4 bytes 0x12, 0x34, 0x56, 0x78 at
addresses 1000–1003 (addresses 1004 and 999 stay 0). -/
theorem c5_highTetra :
    (Memory64.init.write 1000 Width.octa 0x0123456789ABCDEF false).read 1005
        Width.highTetra false false = 0x89ABCDEF00000000 ∧
    (Memory64.init.write 1000 Width.octa 0x0123456789ABCDEF false).read 1005
        Width.highTetra true false = 0x89ABCDEF00000000 ∧
    (Memory64.init.write 1000 Width.highTetra 0x12345678ABCDEFFF
        false).readByte 1000 = 0x12 ∧
    (Memory64.init.write 1000 Width.highTetra 0x12345678ABCDEFFF
        false).readByte 1001 = 0x34 ∧
    (Memory64.init.write 1000 Width.highTetra 0x12345678ABCDEFFF
        false).readByte 1002 = 0x56 ∧
    (Memory64.init.write 1000 Width.highTetra 0x12345678ABCDEFFF
        false).readByte 1003 = 0x78 ∧
    (Memory64.init.write 1000 Width.highTetra 0x12345678ABCDEFFF
        false).readByte 1004 = 0 ∧
    (Memory64.init.write 1000 Width.highTetra 0x12345678ABCDEFFF
        false).readByte 999 = 0 := by
  decide

/-- C6, counterexample: the claim quantifies over every address A, but
`write` aligns A down to the 8-byte boundary.  At the concrete unaligned
address A = 1, `write(1, OCTA, 0x0123456789ABCDEF)` stores to 0..7, so
`readByte(1)` yields the second byte 0x23, not the most significant byte
0x01 the claim requires. -/
theorem c6_counterexample :
    (Memory64.init.write 1 Width.octa 0x0123456789ABCDEF false).readByte 1 =
        0x23 ∧ (0x23 : Nat) ≠ 0x01 := by
  decide

/-- C6, amended: for every address A, every value V and every i < 8,
`write(A, OCTA, V)` stores the bytes of V masked to 64 bits from most to
least significant (big-endian packing) at
`alignDown(A, 8) .. alignDown(A, 8) + 7`; in particular, for every
8-byte-aligned address A (A % 8 = 0) the eight `readByte` calls at A..A+7
yield exactly those bytes, and for unaligned A the bytes land at
`alignDown(A, 8) .. alignDown(A, 8) + 7` instead of A..A+7. -/
theorem c6_amended :
    (∀ (m : Memory64) (A : Nat) (V : Int) (i : Nat), A % 8 = 0 → i < 8 →
      (m.write A Width.octa V false).readByte (A + i) =
        (V % (2 ^ 64 : Int)).toNat / 256 ^ (7 - i) % 256) ∧
    (∀ (m : Memory64) (A : Nat) (V : Int) (i : Nat), i < 8 →
      (m.write A Width.octa V false).readByte (Memory64.alignAddress A 8 + i) =
        (V % (2 ^ 64 : Int)).toNat / 256 ^ (7 - i) % 256) := by
  constructor
  · intro m A V i hA hi
    have halign : Memory64.alignAddress A 8 = A :=
      Nat.div_mul_cancel (Nat.dvd_of_mod_eq_zero hA)
    have h := Memory64.write_octa_bytes m A V i hi
    rw [halign] at h
    exact h
  · intro m A V i hi
    exact Memory64.write_octa_bytes m A V i hi

/-- C6, witness: the amended theorem applied at the concrete aligned input
A = 1000, V = 0x0123456789ABCDEF, i = 0, giving `readByte(1000) = 0x01`,
and at the concrete unaligned input A = 1001, i = 0, where the leading byte
lands at `alignDown(1001, 8) = 1000`. -/
theorem c6_witness :
    ((Memory64.init.write 1000 Width.octa 0x0123456789ABCDEF false).readByte
        (1000 + 0) =
      ((0x0123456789ABCDEF : Int) % (2 ^ 64 : Int)).toNat / 256 ^ (7 - 0) %
        256 ∧
    ((0x0123456789ABCDEF : Int) % (2 ^ 64 : Int)).toNat / 256 ^ (7 - 0) % 256 =
      0x01) ∧
    ((Memory64.init.write 1001 Width.octa 0x0123456789ABCDEF false).readByte
        (Memory64.alignAddress 1001 8 + 0) =
      ((0x0123456789ABCDEF : Int) % (2 ^ 64 : Int)).toNat / 256 ^ (7 - 0) %
        256 ∧
    Memory64.alignAddress 1001 8 = 1000) :=
  ⟨⟨c6_amended.1 Memory64.init 1000 0x0123456789ABCDEF 0 (by decide)
      (by decide), by decide⟩,
   ⟨c6_amended.2 Memory64.init 1001 0x0123456789ABCDEF 0 (by decide),
    by decide⟩⟩

/-- C9 (confirmed): for every `write(A, W, V, options)` with effective
width E (4 for a high-tetra access, else W), only the E bytes at addresses
`alignDown(A, E) .. alignDown(A, E) + E - 1` may change: `readByte` at every
other address returns exactly the same value after the write as before. -/
theorem c9_writeFrame (m : Memory64) (A : Nat) (w : Width) (V : Int)
    (hT : Bool) (a : Nat)
    (h : a < Memory64.alignAddress A (w.actual hT) ∨
      Memory64.alignAddress A (w.actual hT) + w.actual hT ≤ a) :
    (m.write A w V hT).readByte a = m.readByte a :=
  Memory64.write_frame m A w V hT a h

/-- C9, witness: the frame theorem applied at the concrete input — an
octa write at 1000 leaves the byte 0x7F stored at address 999 unchanged. -/
theorem c9_witness :
    ((Memory64.init.writeByte 999 0x7F).write 1000 Width.octa
        0x0123456789ABCDEF false).readByte 999 =
      (Memory64.init.writeByte 999 0x7F).readByte 999 ∧
    (Memory64.init.writeByte 999 0x7F).readByte 999 = 0x7F :=
  ⟨c9_writeFrame (Memory64.init.writeByte 999 0x7F) 1000 Width.octa
      0x0123456789ABCDEF false 999 (by decide), by decide⟩

/-- C10 (confirmed): for every index outside [0, 256) and every value,
`setReg` completes without raising and leaves all general registers, all
special registers, the memory and the program counter unchanged, and
`getReg` completes returning no stored value (`undefined`, modelled `none`);
the same holds for `setSpecialReg`/`getSpecialReg` outside [0, 32). -/
theorem c10_outOfRange (m : MMIX) (i v : Int) :
    (¬ (0 ≤ i ∧ i < 256) →
      m.getReg i = none ∧ (m.setReg i v).reg = m.reg ∧
      (m.setReg i v).sreg = m.sreg ∧ (m.setReg i v).mem = m.mem ∧
      (m.setReg i v).pc = m.pc) ∧
    (¬ (0 ≤ i ∧ i < 32) →
      m.getSpecialReg i = none ∧ (m.setSpecialReg i v).reg = m.reg ∧
      (m.setSpecialReg i v).sreg = m.sreg ∧
      (m.setSpecialReg i v).mem = m.mem ∧ (m.setSpecialReg i v).pc = m.pc) := by
  constructor <;> intro h
  · rw [MMIX.setReg_outRange m i v h]
    exact ⟨MMIX.getReg_outRange m i h, rfl, rfl, rfl, rfl⟩
  · rw [MMIX.setSpecialReg_outRange m i v h]
    exact ⟨MMIX.getSpecialReg_outRange m i h, rfl, rfl, rfl, rfl⟩

/-- C10, witness: the theorem applied at the concrete out-of-range indices
256 (general) and -1 (special). -/
theorem c10_witness :
    (MMIX.init.getReg 256 = none ∧
      (MMIX.init.setReg 256 99).reg = MMIX.init.reg ∧
      (MMIX.init.setReg 256 99).sreg = MMIX.init.sreg ∧
      (MMIX.init.setReg 256 99).mem = MMIX.init.mem ∧
      (MMIX.init.setReg 256 99).pc = MMIX.init.pc) ∧
    (MMIX.init.getSpecialReg (-1) = none ∧
      (MMIX.init.setSpecialReg (-1) 99).reg = MMIX.init.reg ∧
      (MMIX.init.setSpecialReg (-1) 99).sreg = MMIX.init.sreg ∧
      (MMIX.init.setSpecialReg (-1) 99).mem = MMIX.init.mem ∧
      (MMIX.init.setSpecialReg (-1) 99).pc = MMIX.init.pc) :=
  ⟨(c10_outOfRange MMIX.init 256 99).1 (by decide),
   (c10_outOfRange MMIX.init (-1) 99).2 (by decide)⟩

/-- C8 (confirmed): `formatHex(V, 16)` for the mathematical value V = -1
equals "FFFFFFFFFFFFFFFF" (the negative input is brought into the unsigned
64-bit range by adding 2^64, rendered as uppercase hexadecimal and
zero-padded to 16 digits), and `formatSigned` applied to the bit pattern
0xFFFFFFFFFFFFFFFF equals "-1" (bit 63 set means rendering value - 2^64). -/
theorem c8_formatting :
    formatHex (-1) 16 = "FFFFFFFFFFFFFFFF" ∧
      formatSigned 0xFFFFFFFFFFFFFFFF = "-1" :=
  ⟨rfl, rfl⟩

/-- C7 (confirmed): on a store holding byte 0xAB at address A, a signed
byte read returns the sign-extended value — the source extends with
`value | ~mask` over unbounded `BigInt`s, so the return value is the
two's-complement representative 0xFFFFFFFFFFFFFFAB - 2^64 = -85, whose
64-bit bit pattern (its remainder mod 2^64, and its `formatHex` rendering,
which is how the repository's own tests observe it) is 0xFFFFFFFFFFFFFFAB
with the sign bit replicated through bits 8–63; the unsigned read of the
same byte returns 0x00000000000000AB.  In general, for every non-high-tetra
width W, a signed read sign-extends the decoded W*8-bit value in
two's-complement fashion: it equals the unsigned read minus 2^(W*8) exactly
when the sign bit of the narrower width is set. -/
theorem c7_signExtension :
    (∀ (m : Memory64) (A : Nat), m.readByte A = 0xAB →
      m.read A Width.byte true false = (0xFFFFFFFFFFFFFFAB : Int) - 2 ^ 64 ∧
      m.read A Width.byte true false % (2 ^ 64 : Int) = 0xFFFFFFFFFFFFFFAB ∧
      formatHex (m.read A Width.byte true false) 16 = "FFFFFFFFFFFFFFAB" ∧
      m.read A Width.byte false false = 0xAB) ∧
    (∀ (m : Memory64) (A : Nat) (w : Width), w ≠ Width.highTetra →
      m.read A w true false =
        (if (2 ^ (w.size * 8 - 1) : Int) ≤ m.read A w false false
         then m.read A w false false - 2 ^ (w.size * 8)
         else m.read A w false false)) := by
  constructor
  · intro m A hA
    have halign : A / 1 * 1 = A := by omega
    have hu : m.read A Width.byte false false = (0xAB : Int) := by
      simp [Memory64.read, Width.actual, Memory64.alignAddress, Width.size,
        Memory64.readBytes, halign, hA]
    have hs := Memory64.read_signed_eq m A Width.byte (by decide)
    rw [hu] at hs
    refine ⟨?_, ?_, ?_, hu⟩
    · rw [hs]
      norm_num [Width.size]
    · rw [hs]
      norm_num [Width.size]
    · rw [hs]
      norm_num [Width.size]
      rfl
  · intro m A w hw
    exact Memory64.read_signed_eq m A w hw

/-- C7, witness: the theorem applied at the concrete store holding 0xAB at
address 0. -/
theorem c7_witness :
    (Memory64.init.writeByte 0 0xAB).read 0 Width.byte true false =
        (0xFFFFFFFFFFFFFFAB : Int) - 2 ^ 64 ∧
      (Memory64.init.writeByte 0 0xAB).read 0 Width.byte false false = 0xAB :=
  ⟨(c7_signExtension.1 (Memory64.init.writeByte 0 0xAB) 0 (by decide)).1,
   (c7_signExtension.1 (Memory64.init.writeByte 0 0xAB) 0 (by decide)).2.2.2⟩
